import Mathlib

/-!
Shallow embedding of the multi-elevator dispatch core (classes `Lift` and
`ElevatorSystem` of the TypeScript source).  Floors, passenger counts and
car identifiers are modelled as `Int`, mirroring JavaScript numbers on the
integer inputs the system is exercised with.  The JavaScript values
`Infinity` and `-Infinity` (which arise from `Math.max()` / `Math.min()`
on empty argument lists and as the initial `minTime`) are modelled by
`Option Int`, with `none` standing for the infinite value; the comparison
helpers below spell out which infinity a given `none` denotes at each use
site, exactly as the surrounding source branch determines it.
-/

/-- Travel direction of a car: the literals U, D, I of the source. -/
inductive Dir where
  | U : Dir
  | D : Dir
  | I : Dir
deriving DecidableEq, Repr

/-- The Request interface: a (start, dest) floor pair. -/
structure Req where
  start : Int
  dest : Int
deriving DecidableEq, Repr

/-- The Lift class fields. -/
structure Lift where
  id : Int
  totalFloors : Int
  currentFloor : Int
  direction : Dir
  requests : List Req
  passengers : Int
deriving DecidableEq, Repr

/-- The Lift constructor: floor 0, Idle, no requests, no passengers. -/
def Lift.make (id floors : Int) : Lift :=
  { id := id, totalFloors := floors, currentFloor := 0, direction := Dir.I,
    requests := [], passengers := 0 }

/-- Lift.isIdle from the source. -/
def Lift.isIdle (l : Lift) : Bool :=
  decide (l.direction = Dir.I) && l.requests.isEmpty

/-- JavaScript Math.max over a spread list; the empty list gives -Infinity,
modelled as `none`. -/
def listMax : List Int → Option Int :=
  List.foldl (fun a x => match a with | none => some x | some v => some (max v x)) none

/-- JavaScript Math.min over a spread list; the empty list gives Infinity,
modelled as `none`. -/
def listMin : List Int → Option Int :=
  List.foldl (fun a x => match a with | none => some x | some v => some (min v x)) none

/-- The comparison start > maxFloor of the source, where maxFloor came from
a Math.max call, so `none` stands for -Infinity and the comparison is then
true. -/
def gtOpt (s : Int) : Option Int → Bool
  | none => true
  | some v => decide (v < s)

/-- The comparison start < maxFloor of the source, where maxFloor came from
a Math.min call, so `none` stands for Infinity and the comparison is then
true. -/
def ltOpt (s : Int) : Option Int → Bool
  | none => true
  | some v => decide (s < v)

/-- Lift.canAddRequest from the source (the eligibility check). -/
def Lift.canAddRequest (l : Lift) (s d : Int) : Bool :=
  if 10 ≤ l.passengers then false
  else if l.isIdle then true
  else
    let requestGoingUp : Bool := decide (s < d)
    let liftGoingUp : Bool := decide (l.direction = Dir.U)
    if liftGoingUp && requestGoingUp then
      if l.currentFloor > s then false else true
    else if !liftGoingUp && !requestGoingUp then
      if l.currentFloor < s then false else true
    else
      let hasOppositeDirectionRequests :=
        l.requests.any fun r => decide (r.start < r.dest) != requestGoingUp
      if hasOppositeDirectionRequests then
        let maxFloorInCurrentDirection : Option Int :=
          if liftGoingUp then
            listMax ((l.requests.filter fun r => decide (r.start < r.dest)).map
              fun r => max r.start r.dest)
          else
            listMin ((l.requests.filter fun r => decide (r.start > r.dest)).map
              fun r => min r.start r.dest)
        if liftGoingUp && requestGoingUp && gtOpt s maxFloorInCurrentDirection then
          false
        else if !liftGoingUp && !requestGoingUp && ltOpt s maxFloorInCurrentDirection then
          false
        else true
      else true

/-- Lift.calculateTimeToReach from the source (the ETA estimator). -/
def Lift.calculateTimeToReach (l : Lift) (s : Int) (requestDirection : Dir) : Int :=
  if l.isIdle then |l.currentFloor - s|
  else
    let liftGoingUp : Bool := decide (l.direction = Dir.U)
    let requestGoingUp : Bool := decide (requestDirection = Dir.U)
    if liftGoingUp == requestGoingUp && liftGoingUp && decide (s ≥ l.currentFloor) then
      s - l.currentFloor
    else if liftGoingUp == requestGoingUp && !liftGoingUp && decide (s ≤ l.currentFloor) then
      l.currentFloor - s
    else
      let maxFloor := l.requests.foldl
        (fun mf r =>
          if liftGoingUp then max (max mf r.start) r.dest else min (min mf r.start) r.dest)
        l.currentFloor
      if liftGoingUp then (maxFloor - l.currentFloor) + (maxFloor - s)
      else (l.currentFloor - maxFloor) + (s - maxFloor)

/-- The local predicate hasUpRequests computed inside Lift.updateDirection. -/
def hasUpRequests (reqs : List Req) (cf : Int) : Bool :=
  reqs.any fun r =>
    decide (r.start > cf) || decide (r.dest > cf) ||
      (decide (r.start < r.dest) && decide (r.start ≥ cf))

/-- The local predicate hasDownRequests computed inside Lift.updateDirection. -/
def hasDownRequests (reqs : List Req) (cf : Int) : Bool :=
  reqs.any fun r =>
    decide (r.start < cf) || decide (r.dest < cf) ||
      (decide (r.start > r.dest) && decide (r.start ≤ cf))

/-- Lift.updateDirection from the source. -/
def Lift.updateDirection (l : Lift) : Lift :=
  if l.requests.isEmpty then { l with direction := Dir.I }
  else
    let hasUp := hasUpRequests l.requests l.currentFloor
    let hasDown := hasDownRequests l.requests l.currentFloor
    let newDir :=
      if decide (l.direction = Dir.U) && hasUp then Dir.U
      else if decide (l.direction = Dir.D) && hasDown then Dir.D
      else if hasUp then Dir.U
      else if hasDown then Dir.D
      else Dir.I
    { l with direction := newDir }

/-- Lift.addRequest from the source: push the request, increment the
passenger count, recompute the direction. -/
def Lift.addRequest (l : Lift) (s d : Int) : Lift :=
  Lift.updateDirection
    { l with requests := l.requests ++ [⟨s, d⟩], passengers := l.passengers + 1 }

/-- The floor a car occupies after the movement step of Lift.move: one up,
one down, or unchanged according to its direction. -/
def moveFloor (l : Lift) : Int :=
  match l.direction with
  | Dir.U => l.currentFloor + 1
  | Dir.D => l.currentFloor - 1
  | Dir.I => l.currentFloor

/-- Lift.move from the source: step one floor in the current direction,
complete requests whose dest is the new floor (decrementing passengers),
drop requests whose start is the new floor, recompute the direction. -/
def Lift.move (l : Lift) : Lift :=
  let cf := moveFloor l
  let completed := l.requests.filter fun r => decide (r.dest = cf)
  let p := l.passengers - completed.length
  let reqs1 := l.requests.filter fun r => !decide (r.dest = cf)
  let reqs2 := reqs1.filter fun r => !decide (r.start = cf)
  Lift.updateDirection { l with currentFloor := cf, passengers := p, requests := reqs2 }

/-- The ElevatorSystem class fields (the console helper is ignored). -/
structure ElevatorSystem where
  lifts : List Lift
  totalFloors : Int
deriving DecidableEq, Repr

/-- ElevatorSystem.init from the source: carCount fresh cars at floor 0. -/
def ElevatorSystem.init (floors : Int) (n : Nat) : ElevatorSystem :=
  { lifts := (List.range n).map fun i => Lift.make (i : Int) floors,
    totalFloors := floors }

/-- The comparison time < minTime of requestLift, where minTime is `none`
(Infinity) initially. -/
def ltInf (t : Int) : Option Int → Bool
  | none => true
  | some v => decide (t < v)

/-- The comparison time === minTime of requestLift; a finite time never
equals Infinity (`none`). -/
def eqInf (t : Int) : Option Int → Bool
  | none => false
  | some v => decide (t = v)

/-- One iteration of the selection loop of ElevatorSystem.requestLift: if
the car at index i is eligible and its ETA beats minTime (or ties it while
bestLift is still -1), it becomes the new best. -/
def selStep (s d : Int) (rd : Dir) (l : Lift) (i : Nat) (acc : Int × Option Int) :
    Int × Option Int :=
  if l.canAddRequest s d then
    let t := l.calculateTimeToReach s rd
    if ltInf t acc.2 || (eqInf t acc.2 && acc.1 == -1) then ((i : Int), some t) else acc
  else acc

/-- The selection loop of ElevatorSystem.requestLift: walk the cars in index
order, keeping the best (lowest ETA, first-found on ties) eligible car.
The accumulator holds (bestLift, minTime), initially (-1, Infinity). -/
def selectAux (s d : Int) (rd : Dir) : List Lift → Nat → Int × Option Int → Int × Option Int
  | [], _, acc => acc
  | l :: ls, i, acc => selectAux s d rd ls (i + 1) (selStep s d rd l i acc)

/-- Commit a request to the car at the given index (this.lifts[bestLift].addRequest). -/
def commitAt (s d : Int) : List Lift → Nat → List Lift
  | [], _ => []
  | l :: ls, 0 => l.addRequest s d :: ls
  | l :: ls, n + 1 => l :: commitAt s d ls n

/-- ElevatorSystem.requestLift from the source: pick the eligible car of
minimum ETA (first wins ties), commit to it, return its index; return -1
and change nothing when no car is eligible. -/
def ElevatorSystem.requestLift (sys : ElevatorSystem) (s d : Int) : Int × ElevatorSystem :=
  let rd : Dir := if s < d then Dir.U else Dir.D
  let best := (selectAux s d rd sys.lifts 0 (-1, none)).1
  if best = -1 then (best, sys)
  else (best, { sys with lifts := commitAt s d sys.lifts best.toNat })

/-- ElevatorSystem.tick from the source: every car moves once, in index order. -/
def ElevatorSystem.tick (sys : ElevatorSystem) : ElevatorSystem :=
  { sys with lifts := sys.lifts.map Lift.move }

/-- ElevatorSystem.getNumberOfPeopleOnLift from the source:
this.lifts[liftId]?.passengers || 0. -/
def ElevatorSystem.getNumberOfPeopleOnLift (sys : ElevatorSystem) (liftId : Int) : Int :=
  match (if liftId < 0 then none else sys.lifts.get? liftId.toNat) with
  | some l => l.passengers
  | none => 0

/-! ### Basic lemmas about updateDirection -/

theorem Lift.updateDirection_requests (l : Lift) : l.updateDirection.requests = l.requests := by
  unfold Lift.updateDirection; split <;> rfl

theorem Lift.updateDirection_currentFloor (l : Lift) :
    l.updateDirection.currentFloor = l.currentFloor := by
  unfold Lift.updateDirection; split <;> rfl

theorem Lift.updateDirection_passengers (l : Lift) :
    l.updateDirection.passengers = l.passengers := by
  unfold Lift.updateDirection; split <;> rfl

/-- A request with distinct start and dest floors always registers as
pending up work or pending down work, whatever the reference floor. -/
theorem req_up_or_down (r : Req) (cf : Int) (h : r.start ≠ r.dest) :
    (decide (r.start > cf) || decide (r.dest > cf) ||
      (decide (r.start < r.dest) && decide (r.start ≥ cf))) = true ∨
    (decide (r.start < cf) || decide (r.dest < cf) ||
      (decide (r.start > r.dest) && decide (r.start ≤ cf))) = true := by
  simp only [Bool.or_eq_true, Bool.and_eq_true, decide_eq_true_eq]
  omega

theorem hasUp_or_hasDown {reqs : List Req} (cf : Int) (hne : reqs ≠ [])
    (hnd : ∀ r ∈ reqs, r.start ≠ r.dest) :
    hasUpRequests reqs cf = true ∨ hasDownRequests reqs cf = true := by
  obtain ⟨r, rs, rfl⟩ := List.exists_cons_of_ne_nil hne
  have hr := hnd r (List.mem_cons_self r rs)
  rcases req_up_or_down r cf hr with h | h
  · left
    simp only [hasUpRequests, List.any_eq_true]
    exact ⟨r, List.mem_cons_self r rs, h⟩
  · right
    simp only [hasDownRequests, List.any_eq_true]
    exact ⟨r, List.mem_cons_self r rs, h⟩

/-- The direction selection chain of updateDirection never yields Idle when
there is pending up work or pending down work. -/
theorem newDir_ne_I {a b : Bool} {dir : Dir} (h : a = true ∨ b = true) :
    (if decide (dir = Dir.U) && a then Dir.U
     else if decide (dir = Dir.D) && b then Dir.D
     else if a then Dir.U
     else if b then Dir.D
     else Dir.I) ≠ Dir.I := by
  rcases h with h | h <;> subst h <;> cases dir <;> simp <;> split <;> simp_all

/-- After updateDirection, a car whose committed requests all have distinct
start and dest floors is Idle exactly when it has no requests. -/
theorem updateDirection_idle_iff (l : Lift) (hnd : ∀ r ∈ l.requests, r.start ≠ r.dest) :
    (l.updateDirection.direction = Dir.I ↔ l.updateDirection.requests = []) := by
  rcases heq : l.requests with _ | ⟨r, rs⟩
  · unfold Lift.updateDirection
    simp [heq]
  · have hne : l.requests ≠ [] := by simp [heq]
    have hor := hasUp_or_hasDown l.currentFloor hne hnd
    have hreq : l.updateDirection.requests = r :: rs := by
      rw [Lift.updateDirection_requests, heq]
    constructor
    · intro hdir
      exfalso
      unfold Lift.updateDirection at hdir
      rw [heq] at hdir
      simp only [List.isEmpty_cons, if_false] at hdir
      rw [← heq] at hdir
      exact newDir_ne_I hor hdir
    · intro hcon
      rw [hreq] at hcon
      exact absurd hcon (List.cons_ne_nil r rs)

/-! ### Claim 4 reachability: construction, addRequest, advance -/

/-- Car states reachable through construction, addRequest with distinct
start and dest floors, and advance (move). -/
inductive LiftReachND : Lift → Prop where
  | made (id floors : Int) : LiftReachND (Lift.make id floors)
  | add {l : Lift} (s d : Int) (hsd : s ≠ d) (h : LiftReachND l) : LiftReachND (l.addRequest s d)
  | adv {l : Lift} (h : LiftReachND l) : LiftReachND l.move

theorem Lift.addRequest_requests (l : Lift) (s d : Int) :
    (l.addRequest s d).requests = l.requests ++ [⟨s, d⟩] := by
  unfold Lift.addRequest
  rw [Lift.updateDirection_requests]

theorem Lift.addRequest_currentFloor (l : Lift) (s d : Int) :
    (l.addRequest s d).currentFloor = l.currentFloor := by
  unfold Lift.addRequest
  rw [Lift.updateDirection_currentFloor]

theorem Lift.addRequest_passengers (l : Lift) (s d : Int) :
    (l.addRequest s d).passengers = l.passengers + 1 := by
  unfold Lift.addRequest
  rw [Lift.updateDirection_passengers]

theorem Lift.move_currentFloor (l : Lift) : l.move.currentFloor = moveFloor l := by
  unfold Lift.move
  rw [Lift.updateDirection_currentFloor]

theorem Lift.move_requests (l : Lift) :
    l.move.requests = (l.requests.filter fun r => !decide (r.dest = moveFloor l)).filter
      fun r => !decide (r.start = moveFloor l) := by
  unfold Lift.move
  rw [Lift.updateDirection_requests]

theorem Lift.move_passengers (l : Lift) :
    l.move.passengers =
      l.passengers - (l.requests.filter fun r => decide (r.dest = moveFloor l)).length := by
  unfold Lift.move
  rw [Lift.updateDirection_passengers]

theorem Lift.move_requests_subset (l : Lift) : ∀ r ∈ l.move.requests, r ∈ l.requests := by
  intro r hr
  rw [Lift.move_requests] at hr
  exact List.mem_of_mem_filter (List.mem_of_mem_filter hr)

theorem addRequest_invariant (l : Lift) (s d : Int) (hsd : s ≠ d)
    (hnd : ∀ r ∈ l.requests, r.start ≠ r.dest) :
    (∀ r ∈ (l.addRequest s d).requests, r.start ≠ r.dest) ∧
    ((l.addRequest s d).direction = Dir.I ↔ (l.addRequest s d).requests = []) := by
  have hnd2 : ∀ r ∈ l.requests ++ [(⟨s, d⟩ : Req)], r.start ≠ r.dest := by
    intro r hr
    rcases List.mem_append.mp hr with hr | hr
    · exact hnd r hr
    · rw [List.mem_singleton] at hr
      subst hr
      exact hsd
  have heq : l.addRequest s d = Lift.updateDirection
      { l with requests := l.requests ++ [⟨s, d⟩], passengers := l.passengers + 1 } := rfl
  constructor
  · intro r hr
    rw [heq, Lift.updateDirection_requests] at hr
    exact hnd2 r hr
  · rw [heq]
    exact updateDirection_idle_iff _ hnd2

theorem move_invariant (l : Lift) (hnd : ∀ r ∈ l.requests, r.start ≠ r.dest) :
    (∀ r ∈ l.move.requests, r.start ≠ r.dest) ∧
    (l.move.direction = Dir.I ↔ l.move.requests = []) := by
  have heq : l.move = Lift.updateDirection
      { l with currentFloor := moveFloor l,
               passengers := l.passengers -
                 (l.requests.filter fun r => decide (r.dest = moveFloor l)).length,
               requests := (l.requests.filter fun r => !decide (r.dest = moveFloor l)).filter
                 fun r => !decide (r.start = moveFloor l) } := rfl
  have hnd2 : ∀ r ∈ (l.requests.filter fun r => !decide (r.dest = moveFloor l)).filter
      (fun r => !decide (r.start = moveFloor l)), r.start ≠ r.dest := by
    intro r hr
    exact hnd r (List.mem_of_mem_filter (List.mem_of_mem_filter hr))
  constructor
  · intro r hr
    exact hnd r (Lift.move_requests_subset l r hr)
  · rw [heq]
    exact updateDirection_idle_iff _ hnd2

theorem liftReachND_invariant {l : Lift} (h : LiftReachND l) :
    (∀ r ∈ l.requests, r.start ≠ r.dest) ∧ (l.direction = Dir.I ↔ l.requests = []) := by
  induction h with
  | made id floors => simp [Lift.make]
  | add s d hsd h ih => exact addRequest_invariant _ s d hsd ih.1
  | adv h ih => exact move_invariant _ ih.1

/-! ### Characterisation of the requestLift selection loop -/

/-- Summary of the selection loop accumulator after scanning the prefix
pre of the car list: either no eligible car has been seen and the
accumulator is untouched, or it holds the first index attaining the
minimum ETA among the eligible cars of pre, together with that ETA. -/
def SelState (s d : Int) (rd : Dir) (pre : List Lift) (b : Int) (m : Option Int) : Prop :=
  (b = -1 ∧ m = none ∧ ∀ l ∈ pre, l.canAddRequest s d = false) ∨
  (∃ (k : Nat) (lk : Lift), b = (k : Int) ∧ pre.get? k = some lk ∧
    lk.canAddRequest s d = true ∧ m = some (lk.calculateTimeToReach s rd) ∧
    ∀ (j : Nat) (lj : Lift), pre.get? j = some lj → lj.canAddRequest s d = true →
      lk.calculateTimeToReach s rd ≤ lj.calculateTimeToReach s rd ∧
      (lj.calculateTimeToReach s rd = lk.calculateTimeToReach s rd → k ≤ j))

theorem selState_step (s d : Int) (rd : Dir) (pre : List Lift) (l : Lift) (b : Int)
    (m : Option Int) (h : SelState s d rd pre b m) :
    SelState s d rd (pre ++ [l]) (selStep s d rd l pre.length (b, m)).1
      (selStep s d rd l pre.length (b, m)).2 := by
  by_cases he : l.canAddRequest s d = true
  · set t := l.calculateTimeToReach s rd with ht
    by_cases hc : (ltInf t m || (eqInf t m && b == -1)) = true
    · have hstep : selStep s d rd l pre.length (b, m) = ((pre.length : Int), some t) := by
        simp [selStep, he, ← ht, hc]
      rw [hstep]
      refine Or.inr ⟨pre.length, l, rfl, ?_, he, rfl, ?_⟩
      · exact List.get?_concat_length pre l
      · intro j lj hj hj2
        have hjlen : j < pre.length + 1 := by
          have := List.get?_eq_some.mp hj
          simpa using this.1
        rcases Nat.lt_or_ge j pre.length with hlt | hge
        · rw [List.get?_append hlt] at hj
          rcases h with ⟨hb, hm, hall⟩ | ⟨k, lk, hb, hk, hke, hm, hmin⟩
          · exact absurd hj2 (by simp [hall lj (List.get?_mem hj)])
          · -- the accumulator held a minimum over pre; the condition says t < that
            have hbne : (b == -1) = false := by
              rw [hb]
              simp
            rw [hm] at hc
            simp only [ltInf, eqInf, hbne, Bool.and_false, Bool.or_false,
              decide_eq_true_eq] at hc
            have hlk := hmin j lj hj hj2
            constructor
            · omega
            · intro heq2
              omega
        · have hj2len : j = pre.length := by omega
          subst hj2len
          rw [List.get?_concat_length] at hj
          cases hj
          exact ⟨le_refl _, fun _ => le_refl _⟩
    · have hstep : selStep s d rd l pre.length (b, m) = (b, m) := by
        simp only [selStep, he, if_true, ← ht]
        rw [if_neg (by simpa using hc)]
      rw [hstep]
      rcases h with ⟨hb, hm, hall⟩ | ⟨k, lk, hb, hk, hke, hm, hmin⟩
      · exfalso
        rw [hm] at hc
        simp [ltInf] at hc
      · have hklen : k < pre.length := by
          have := List.get?_eq_some.mp hk
          exact this.1
        rw [hm] at hc
        have hbne : (b == -1) = false := by
          rw [hb]
          simp
        simp only [ltInf, eqInf, hbne, Bool.and_false, Bool.or_false,
          decide_eq_true_eq, Bool.not_eq_true] at hc
        have htle : lk.calculateTimeToReach s rd ≤ t := by omega
        refine Or.inr ⟨k, lk, hb, ?_, hke, hm, ?_⟩
        · rw [List.get?_append hklen]
          exact hk
        · intro j lj hj hj2
          have hjlen : j < pre.length + 1 := by
            have := List.get?_eq_some.mp hj
            simpa using this.1
          rcases Nat.lt_or_ge j pre.length with hlt | hge
          · rw [List.get?_append hlt] at hj
            exact hmin j lj hj hj2
          · have hj2len : j = pre.length := by omega
            subst hj2len
            rw [List.get?_concat_length] at hj
            cases hj
            exact ⟨htle, fun _ => Nat.le_of_lt hklen⟩
  · have hstep : selStep s d rd l pre.length (b, m) = (b, m) := by
      simp [selStep, he]
    rw [hstep]
    rcases h with ⟨hb, hm, hall⟩ | ⟨k, lk, hb, hk, hke, hm, hmin⟩
    · refine Or.inl ⟨hb, hm, ?_⟩
      intro l' hl'
      rcases List.mem_append.mp hl' with hl' | hl'
      · exact hall l' hl'
      · rw [List.mem_singleton] at hl'
        subst hl'
        simpa using he
    · have hklen : k < pre.length := (List.get?_eq_some.mp hk).1
      refine Or.inr ⟨k, lk, hb, ?_, hke, hm, ?_⟩
      · rw [List.get?_append hklen]
        exact hk
      · intro j lj hj hj2
        have hjlen : j < pre.length + 1 := by
          have := List.get?_eq_some.mp hj
          simpa using this.1
        rcases Nat.lt_or_ge j pre.length with hlt | hge
        · rw [List.get?_append hlt] at hj
          exact hmin j lj hj hj2
        · have hj2len : j = pre.length := by omega
          subst hj2len
          rw [List.get?_concat_length] at hj
          cases hj
          exact absurd hj2 (by simpa using he)

theorem selectAux_sel (s d : Int) (rd : Dir) (ls : List Lift) :
    ∀ (pre : List Lift) (b : Int) (m : Option Int), SelState s d rd pre b m →
      SelState s d rd (pre ++ ls)
        (selectAux s d rd ls pre.length (b, m)).1
        (selectAux s d rd ls pre.length (b, m)).2 := by
  induction ls with
  | nil =>
    intro pre b m h
    rw [selectAux]
    simpa using h
  | cons l ls ih =>
    intro pre b m h
    rw [selectAux]
    have h2 := selState_step s d rd pre l b m h
    have h3 := ih (pre ++ [l]) (selStep s d rd l pre.length (b, m)).1
      (selStep s d rd l pre.length (b, m)).2 h2
    simpa [List.append_assoc] using h3

theorem requestLift_sel (sys : ElevatorSystem) (s d : Int) :
    SelState s d (if s < d then Dir.U else Dir.D) sys.lifts
      (selectAux s d (if s < d then Dir.U else Dir.D) sys.lifts 0 (-1, none)).1
      (selectAux s d (if s < d then Dir.U else Dir.D) sys.lifts 0 (-1, none)).2 := by
  have h0 : SelState s d (if s < d then Dir.U else Dir.D) [] (-1) none :=
    Or.inl ⟨rfl, rfl, by simp⟩
  have := selectAux_sel s d (if s < d then Dir.U else Dir.D) sys.lifts [] (-1) none h0
  simpa using this

theorem commitAt_get? (s d : Int) : ∀ (xs : List Lift) (k j : Nat),
    (commitAt s d xs k).get? j =
      if j = k then (xs.get? k).map (fun l => l.addRequest s d) else xs.get? j := by
  intro xs
  induction xs with
  | nil =>
    intro k j
    cases k <;> cases j <;> simp [commitAt]
  | cons x xs ih =>
    intro k j
    cases k with
    | zero =>
      cases j with
      | zero => simp [commitAt]
      | succ j => simp [commitAt]
    | succ k =>
      cases j with
      | zero => simp [commitAt]
      | succ j =>
        simp only [commitAt, List.get?_cons_succ, ih k j]
        by_cases hjk : j = k <;> simp [hjk]

theorem commitAt_mem (s d : Int) (xs : List Lift) (k : Nat) (l' : Lift)
    (h : l' ∈ commitAt s d xs k) :
    l' ∈ xs ∨ ∃ l, xs.get? k = some l ∧ l' = l.addRequest s d := by
  obtain ⟨j, hj⟩ := List.mem_iff_get?.mp h
  rw [commitAt_get? s d xs k j] at hj
  by_cases hjk : j = k
  · rw [if_pos hjk] at hj
    rcases Option.map_eq_some'.mp hj with ⟨l, hl, hl2⟩
    exact Or.inr ⟨l, hl, hl2.symm⟩
  · rw [if_neg hjk] at hj
    exact Or.inl (List.get?_mem hj)

/-- Full case analysis of ElevatorSystem.requestLift: either nothing is
eligible and the call returns -1 leaving the system unchanged, or the call
commits to the first eligible car of minimum ETA and returns its index. -/
theorem requestLift_cases (sys : ElevatorSystem) (s d : Int) :
    (sys.requestLift s d = (-1, sys) ∧ ∀ l ∈ sys.lifts, l.canAddRequest s d = false) ∨
    (∃ (k : Nat) (lk : Lift), sys.lifts.get? k = some lk ∧ lk.canAddRequest s d = true ∧
      sys.requestLift s d = ((k : Int), { sys with lifts := commitAt s d sys.lifts k }) ∧
      ∀ (j : Nat) (lj : Lift), sys.lifts.get? j = some lj → lj.canAddRequest s d = true →
        lk.calculateTimeToReach s (if s < d then Dir.U else Dir.D) ≤
          lj.calculateTimeToReach s (if s < d then Dir.U else Dir.D) ∧
        (lj.calculateTimeToReach s (if s < d then Dir.U else Dir.D) =
          lk.calculateTimeToReach s (if s < d then Dir.U else Dir.D) → k ≤ j)) := by
  rcases requestLift_sel sys s d with ⟨hb, hm, hall⟩ | ⟨k, lk, hb, hk, hke, hm, hmin⟩
  · left
    constructor
    · simp only [ElevatorSystem.requestLift]
      rw [hb]
      simp
    · exact hall
  · right
    refine ⟨k, lk, hk, hke, ?_, hmin⟩
    simp only [ElevatorSystem.requestLift]
    rw [hb]
    have hne : ¬((k : Int) = -1) := by omega
    rw [if_neg hne]
    simp

/-! ### System reachability and the floor / passenger invariants -/

/-- Per-car well-formedness with respect to the top floor: floor within
bounds, direction consistent with the bounds, committed request floors
within bounds, passenger count within capacity and at least the number of
pending requests. -/
def LiftOK (top : Int) (l : Lift) : Prop :=
  0 ≤ l.currentFloor ∧ l.currentFloor ≤ top ∧
  (l.direction = Dir.U → l.currentFloor < top) ∧
  (l.direction = Dir.D → 0 < l.currentFloor) ∧
  (∀ r ∈ l.requests, 0 ≤ r.start ∧ r.start ≤ top ∧ 0 ≤ r.dest ∧ r.dest ≤ top) ∧
  0 ≤ l.passengers ∧ l.passengers ≤ 10 ∧ (l.requests.length : Int) ≤ l.passengers

def SysInv (sys : ElevatorSystem) : Prop :=
  1 ≤ sys.totalFloors ∧ ∀ l ∈ sys.lifts, LiftOK (sys.totalFloors - 1) l

/-- System states reachable through init, requestLift with caller-validated
floors (the §6 contract of the spec) and tick. -/
inductive SysReach : ElevatorSystem → Prop where
  | boot (floors : Int) (n : Nat) (h : 1 ≤ floors) : SysReach (ElevatorSystem.init floors n)
  | request {sys : ElevatorSystem} (s d : Int) (h : SysReach sys)
      (hs0 : 0 ≤ s) (hs1 : s ≤ sys.totalFloors - 1)
      (hd0 : 0 ≤ d) (hd1 : d ≤ sys.totalFloors - 1) : SysReach (sys.requestLift s d).2
  | step {sys : ElevatorSystem} (h : SysReach sys) : SysReach sys.tick

theorem hasUp_false_at_top {reqs : List Req} {cf : Int}
    (h : ∀ r ∈ reqs, r.start ≤ cf ∧ r.dest ≤ cf) : hasUpRequests reqs cf = false := by
  rw [hasUpRequests, List.any_eq_false]
  intro r hr
  have hb := h r hr
  simp only [Bool.or_eq_true, Bool.and_eq_true, decide_eq_true_eq]
  omega

theorem hasDown_false_at_bottom {reqs : List Req} {cf : Int}
    (h : ∀ r ∈ reqs, cf ≤ r.start ∧ cf ≤ r.dest) : hasDownRequests reqs cf = false := by
  rw [hasDownRequests, List.any_eq_false]
  intro r hr
  have hb := h r hr
  simp only [Bool.or_eq_true, Bool.and_eq_true, decide_eq_true_eq]
  omega

theorem updateDirection_U_hasUp (l : Lift) (h : l.updateDirection.direction = Dir.U) :
    hasUpRequests l.requests l.currentFloor = true := by
  unfold Lift.updateDirection at h
  by_cases he : l.requests.isEmpty
  · simp [he] at h
  · simp only [he, if_false] at h
    by_cases hu : hasUpRequests l.requests l.currentFloor
    · exact hu
    · exfalso
      rw [Bool.not_eq_true] at hu
      simp only [hu, Bool.and_false, if_false] at h
      cases hD : hasDownRequests l.requests l.currentFloor <;>
        cases hdir : l.direction <;> simp [hD, hdir] at h

theorem updateDirection_D_hasDown (l : Lift) (h : l.updateDirection.direction = Dir.D) :
    hasDownRequests l.requests l.currentFloor = true := by
  unfold Lift.updateDirection at h
  by_cases he : l.requests.isEmpty
  · simp [he] at h
  · simp only [he, if_false] at h
    by_cases hd : hasDownRequests l.requests l.currentFloor
    · exact hd
    · exfalso
      rw [Bool.not_eq_true] at hd
      simp only [hd, Bool.and_false, if_false] at h
      cases hU : hasUpRequests l.requests l.currentFloor <;>
        cases hdir : l.direction <;> simp [hU, hdir] at h

/-- After updateDirection, a car within bounds holding only in-bounds
requests never points up at the top floor nor down at floor 0. -/
theorem updateDirection_dir_bounds (l : Lift) (top : Int)
    (h0 : 0 ≤ l.currentFloor) (h1 : l.currentFloor ≤ top)
    (hreq : ∀ r ∈ l.requests, 0 ≤ r.start ∧ r.start ≤ top ∧ 0 ≤ r.dest ∧ r.dest ≤ top) :
    (l.updateDirection.direction = Dir.U → l.currentFloor < top) ∧
    (l.updateDirection.direction = Dir.D → 0 < l.currentFloor) := by
  constructor
  · intro hU
    by_contra hc
    have hcf : l.currentFloor = top := by omega
    have hfalse : hasUpRequests l.requests l.currentFloor = false := by
      apply hasUp_false_at_top
      intro r hr
      have := hreq r hr
      omega
    rw [updateDirection_U_hasUp l hU] at hfalse
    cases hfalse
  · intro hD
    by_contra hc
    have hcf : l.currentFloor = 0 := by omega
    have hfalse : hasDownRequests l.requests l.currentFloor = false := by
      apply hasDown_false_at_bottom
      intro r hr
      have := hreq r hr
      omega
    rw [updateDirection_D_hasDown l hD] at hfalse
    cases hfalse

theorem length_filter_add_length_filter_not {α : Type} (p : α → Bool) (xs : List α) :
    (xs.filter p).length + (xs.filter fun x => !(p x)).length = xs.length := by
  induction xs with
  | nil => rfl
  | cons x xs ih => by_cases h : p x <;> simp [List.filter_cons, h] <;> omega

/-- A car at full capacity rejects every request. -/
theorem canAddRequest_at_capacity (l : Lift) (h : 10 ≤ l.passengers) (s d : Int) :
    l.canAddRequest s d = false := by
  unfold Lift.canAddRequest
  rw [if_pos h]

/-- An eligible car is strictly under capacity. -/
theorem canAddRequest_capacity (l : Lift) (s d : Int) (h : l.canAddRequest s d = true) :
    l.passengers ≤ 9 := by
  by_contra hc
  have h10 : 10 ≤ l.passengers := by omega
  rw [canAddRequest_at_capacity l h10 s d] at h
  cases h

theorem addRequest_LiftOK {top : Int} {l : Lift} (hok : LiftOK top l) (s d : Int)
    (hs0 : 0 ≤ s) (hs1 : s ≤ top) (hd0 : 0 ≤ d) (hd1 : d ≤ top)
    (helig : l.canAddRequest s d = true) : LiftOK top (l.addRequest s d) := by
  obtain ⟨h0, h1, hU, hD, hreq, hp0, hp1, hlen⟩ := hok
  have hcap : l.passengers ≤ 9 := canAddRequest_capacity l s d helig
  have hreq2 : ∀ r ∈ l.requests ++ [(⟨s, d⟩ : Req)],
      0 ≤ r.start ∧ r.start ≤ top ∧ 0 ≤ r.dest ∧ r.dest ≤ top := by
    intro r hr
    rcases List.mem_append.mp hr with hr | hr
    · exact hreq r hr
    · rw [List.mem_singleton] at hr
      subst hr
      exact ⟨hs0, hs1, hd0, hd1⟩
  have heq : l.addRequest s d = Lift.updateDirection
      { l with requests := l.requests ++ [⟨s, d⟩], passengers := l.passengers + 1 } := rfl
  have hdir := updateDirection_dir_bounds
    { l with requests := l.requests ++ [⟨s, d⟩], passengers := l.passengers + 1 } top h0 h1 hreq2
  refine ⟨?_, ?_, ?_, ?_, ?_, ?_, ?_, ?_⟩
  · rw [Lift.addRequest_currentFloor]
    exact h0
  · rw [Lift.addRequest_currentFloor]
    exact h1
  · rw [heq, Lift.updateDirection_currentFloor]
    exact hdir.1
  · rw [heq, Lift.updateDirection_currentFloor]
    exact hdir.2
  · rw [Lift.addRequest_requests]
    exact hreq2
  · rw [Lift.addRequest_passengers]
    omega
  · rw [Lift.addRequest_passengers]
    omega
  · rw [Lift.addRequest_passengers, Lift.addRequest_requests]
    simp only [List.length_append, List.length_singleton]
    push_cast
    omega

theorem move_LiftOK {top : Int} {l : Lift} (hok : LiftOK top l) : LiftOK top l.move := by
  obtain ⟨h0, h1, hU, hD, hreq, hp0, hp1, hlen⟩ := hok
  have hmf : 0 ≤ moveFloor l ∧ moveFloor l ≤ top := by
    cases hdir : l.direction
    · have := hU hdir
      simp only [moveFloor, hdir]
      omega
    · have := hD hdir
      simp only [moveFloor, hdir]
      omega
    · simp only [moveFloor, hdir]
      omega
  have hreq2 : ∀ r ∈ (l.requests.filter fun r => !decide (r.dest = moveFloor l)).filter
      (fun r => !decide (r.start = moveFloor l)),
      0 ≤ r.start ∧ r.start ≤ top ∧ 0 ≤ r.dest ∧ r.dest ≤ top := by
    intro r hr
    exact hreq r (List.mem_of_mem_filter (List.mem_of_mem_filter hr))
  have heq : l.move = Lift.updateDirection
      { l with currentFloor := moveFloor l,
               passengers := l.passengers -
                 (l.requests.filter fun r => decide (r.dest = moveFloor l)).length,
               requests := (l.requests.filter fun r => !decide (r.dest = moveFloor l)).filter
                 fun r => !decide (r.start = moveFloor l) } := rfl
  have hdir := updateDirection_dir_bounds
    { l with currentFloor := moveFloor l,
             passengers := l.passengers -
               (l.requests.filter fun r => decide (r.dest = moveFloor l)).length,
             requests := (l.requests.filter fun r => !decide (r.dest = moveFloor l)).filter
               fun r => !decide (r.start = moveFloor l) } top hmf.1 hmf.2 hreq2
  have hcount : (l.requests.filter fun r => decide (r.dest = moveFloor l)).length +
      (l.requests.filter fun r => !decide (r.dest = moveFloor l)).length =
      l.requests.length :=
    length_filter_add_length_filter_not _ l.requests
  have hlen2 : ((l.requests.filter fun r => !decide (r.dest = moveFloor l)).filter
      fun r => !decide (r.start = moveFloor l)).length ≤
      (l.requests.filter fun r => !decide (r.dest = moveFloor l)).length :=
    List.length_filter_le _ _
  refine ⟨?_, ?_, ?_, ?_, ?_, ?_, ?_, ?_⟩
  · rw [Lift.move_currentFloor]
    exact hmf.1
  · rw [Lift.move_currentFloor]
    exact hmf.2
  · rw [heq, Lift.updateDirection_currentFloor]
    exact hdir.1
  · rw [heq, Lift.updateDirection_currentFloor]
    exact hdir.2
  · rw [Lift.move_requests]
    exact hreq2
  · rw [Lift.move_passengers]
    have := List.length_filter_le (fun r => decide (r.dest = moveFloor l)) l.requests
    omega
  · rw [Lift.move_passengers]
    omega
  · rw [Lift.move_passengers, Lift.move_requests]
    omega

theorem init_SysInv (floors : Int) (n : Nat) (h : 1 ≤ floors) :
    SysInv (ElevatorSystem.init floors n) := by
  refine ⟨h, ?_⟩
  intro l hl
  simp only [ElevatorSystem.init, List.mem_map, List.mem_range] at hl
  obtain ⟨i, hi, rfl⟩ := hl
  refine ⟨?_, ?_, ?_, ?_, ?_, ?_, ?_, ?_⟩ <;>
    simp only [LiftOK, Lift.make, ElevatorSystem.init, List.length_nil] <;>
    first
      | omega
      | simp

/-- The master invariant: every reachable system state under the caller
contract keeps all its cars well-formed. -/
theorem sysReach_inv {sys : ElevatorSystem} (h : SysReach sys) : SysInv sys := by
  induction h with
  | boot floors n h => exact init_SysInv floors n h
  | @request sys s d h hs0 hs1 hd0 hd1 ih =>
    obtain ⟨htop, hall⟩ := ih
    rcases requestLift_cases sys s d with ⟨heq, _⟩ | ⟨k, lk, hget, helig, heq, _⟩
    · rw [heq]
      exact ⟨htop, hall⟩
    · rw [heq]
      refine ⟨htop, ?_⟩
      intro l' hl'
      rcases commitAt_mem s d sys.lifts k l' hl' with hmem | ⟨l, hlk, rfl⟩
      · exact hall l' hmem
      · rw [hget] at hlk
        cases hlk
        exact addRequest_LiftOK (hall lk (List.get?_mem hget)) s d hs0 hs1 hd0 hd1 helig
  | @step sys h ih =>
    obtain ⟨htop, hall⟩ := ih
    refine ⟨htop, ?_⟩
    intro l' hl'
    simp only [ElevatorSystem.tick, List.mem_map] at hl'
    obtain ⟨l, hl, rfl⟩ := hl'
    exact move_LiftOK (hall l hl)

/-! ### The ETA formula as the spec words it -/

/-- The turnaround floor of the spec text: the farthest floor the car must
still reach in its travel direction, over its current floor and the
endpoints of all committed requests. -/
def turnaroundFloor (l : Lift) (up : Bool) : Int :=
  if up then (l.requests.map fun r => max r.start r.dest).foldl max l.currentFloor
  else (l.requests.map fun r => min r.start r.dest).foldl min l.currentFloor

/-- The ETA formula as the amended spec states it: absolute distance when
Idle; direct distance when moving with the request and the pickup is still
ahead; otherwise distance to the turnaround floor plus the signed offset
from the turnaround floor back to the pickup floor (negative when the
pickup lies beyond the turnaround floor). -/
def specEta (l : Lift) (s : Int) (rd : Dir) : Int :=
  if l.isIdle then |l.currentFloor - s|
  else if l.direction = Dir.U ∧ rd = Dir.U ∧ l.currentFloor ≤ s then
    s - l.currentFloor
  else if l.direction ≠ Dir.U ∧ rd ≠ Dir.U ∧ s ≤ l.currentFloor then
    l.currentFloor - s
  else if l.direction = Dir.U then
    (turnaroundFloor l true - l.currentFloor) + (turnaroundFloor l true - s)
  else
    (l.currentFloor - turnaroundFloor l false) + (s - turnaroundFloor l false)

theorem foldl_max_map (reqs : List Req) (a : Int) :
    reqs.foldl (fun mf r => max (max mf r.start) r.dest) a =
      (reqs.map fun r => max r.start r.dest).foldl max a := by
  induction reqs generalizing a with
  | nil => rfl
  | cons r rs ih =>
    simp only [List.foldl_cons, List.map_cons]
    rw [max_assoc]
    exact ih _

theorem foldl_min_map (reqs : List Req) (a : Int) :
    reqs.foldl (fun mf r => min (min mf r.start) r.dest) a =
      (reqs.map fun r => min r.start r.dest).foldl min a := by
  induction reqs generalizing a with
  | nil => rfl
  | cons r rs ih =>
    simp only [List.foldl_cons, List.map_cons]
    rw [min_assoc]
    exact ih _

theorem calculateTimeToReach_eq_specEta (l : Lift) (s : Int) (rd : Dir) :
    l.calculateTimeToReach s rd = specEta l s rd := by
  unfold Lift.calculateTimeToReach specEta turnaroundFloor
  by_cases hI : l.isIdle
  · simp [hI]
  · rw [Bool.not_eq_true] at hI
    by_cases hU : l.direction = Dir.U <;> by_cases hrd : rd = Dir.U
    · by_cases hcmp : l.currentFloor ≤ s
      · simp [hI, hU, hrd, hcmp, ge_iff_le]
      · simp [hI, hU, hrd, hcmp, ge_iff_le, foldl_max_map]
    · simp [hI, hU, hrd, foldl_max_map]
    · simp [hI, hU, hrd, foldl_min_map]
    · by_cases hcmp : s ≤ l.currentFloor
      · simp [hI, hU, hrd, hcmp]
      · simp [hI, hU, hrd, hcmp, foldl_min_map]

/-! ### Claim theorems -/

/-- Claim C1, counterexample: a car moving Up whose committed requests have
farthest floor 5 accepts a new Up request starting at floor 7, beyond the
farthest floor, although the claim demands rejection there.  The car is
built by addRequest(2,5) on a fresh car, so this state is reachable. -/
theorem claim1_counterexample :
    (Lift.addRequest (Lift.make 0 6) 2 5).direction = Dir.U ∧
    (Lift.addRequest (Lift.make 0 6) 2 5).requests = [⟨2, 5⟩] ∧
    (Lift.addRequest (Lift.make 0 6) 2 5).passengers = 1 ∧
    (Lift.addRequest (Lift.make 0 6) 2 5).canAddRequest 7 8 = true := by
  decide

/-- Claim C1 as amended: for a car moving Up and under capacity, a new Up
request is eligible exactly when the car has not yet passed its start
floor; the farthest committed floor plays no role, so requests beyond the
current sweep are accepted as well. -/
theorem claim1_theorem (l : Lift) (s d : Int) (hU : l.direction = Dir.U)
    (hp : l.passengers < 10) (hsd : s < d) :
    (l.canAddRequest s d = true ↔ l.currentFloor ≤ s) := by
  have hidle : l.isIdle = false := by simp [Lift.isIdle, hU]
  have h10 : ¬(10 ≤ l.passengers) := by omega
  unfold Lift.canAddRequest
  rw [if_neg h10, hidle]
  simp [hU, hsd]

/-- Claim C1 witness: the Up car with farthest committed floor 5 at floor 0
accepts an Up request starting at floor 3, inside the current sweep. -/
theorem claim1_witness :
    (Lift.addRequest (Lift.make 0 6) 2 5).canAddRequest 3 4 = true :=
  (claim1_theorem (Lift.addRequest (Lift.make 0 6) 2 5) 3 4 (by decide) (by decide)
    (by decide)).mpr (by decide)

/-- Claim C2, evaluation at the failing input: a fresh car at floor 0
commits (1,3) and (0,3) and advances three times.  Every committed
destination (floor 3) has been reached and the car is Idle with an empty
request list, yet passengerCount is 1, not 0: the (1,3) request was
deleted wholesale at its pickup floor 1 without its passenger ever being
dropped off, contradicting the round-trip property. -/
theorem claim2_theorem :
    (Lift.move (Lift.move (Lift.move
      (Lift.addRequest (Lift.addRequest (Lift.make 0 6) 1 3) 0 3)))).currentFloor = 3 ∧
    (Lift.move (Lift.move (Lift.move
      (Lift.addRequest (Lift.addRequest (Lift.make 0 6) 1 3) 0 3)))).direction = Dir.I ∧
    (Lift.move (Lift.move (Lift.move
      (Lift.addRequest (Lift.addRequest (Lift.make 0 6) 1 3) 0 3)))).requests = [] ∧
    (Lift.move (Lift.move (Lift.move
      (Lift.addRequest (Lift.addRequest (Lift.make 0 6) 1 3) 0 3)))).passengers = 1 := by
  decide

/-- Claim C3, evaluation at the failing input: a car moving Up (farthest
committed floor 5, under capacity) is asked about the opposite-direction
request (7,1); serving it forces the car to overshoot floor 5 up to floor
7, and there are committed requests of the opposite direction, so the
claim demands rejection, but canAddRequest returns true: both rejection
guards of the opposite-direction branch re-require the same-direction
condition and are unreachable. -/
theorem claim3_theorem :
    (Lift.addRequest (Lift.make 0 6) 2 5).direction = Dir.U ∧
    (Lift.addRequest (Lift.make 0 6) 2 5).passengers < 10 ∧
    ((Lift.addRequest (Lift.make 0 6) 2 5).requests.any
      fun r => decide (r.start < r.dest) != decide ((7 : Int) < 1)) = true ∧
    listMax (((Lift.addRequest (Lift.make 0 6) 2 5).requests.filter
      fun r => decide (r.start < r.dest)).map fun r => max r.start r.dest) = some 5 ∧
    (Lift.addRequest (Lift.make 0 6) 2 5).canAddRequest 7 1 = true := by
  decide

/-- Claim C4, counterexample: addRequest(0,0) on a fresh car at floor 0
(floors within range, but start = dest) leaves the car with direction Idle
and a nonempty request list, violating the claimed invariant. -/
theorem claim4_counterexample :
    (Lift.addRequest (Lift.make 0 6) 0 0).direction = Dir.I ∧
    (Lift.addRequest (Lift.make 0 6) 0 0).requests ≠ [] := by
  decide

/-- Claim C4 as amended: in every car state reachable through
construction, addRequest with distinct start and dest floors, and advance,
direction is Idle exactly when the request list is empty. -/
theorem claim4_theorem {l : Lift} (h : LiftReachND l) :
    (l.direction = Dir.I ↔ l.requests = []) :=
  (liftReachND_invariant h).2

/-- Claim C4 witness: the invariant instantiated at the reachable car
obtained by one addRequest on a fresh car. -/
theorem claim4_witness :
    ((Lift.addRequest (Lift.make 0 6) 2 5).direction = Dir.I ↔
      (Lift.addRequest (Lift.make 0 6) 2 5).requests = []) :=
  claim4_theorem (LiftReachND.add 2 5 (by decide) (LiftReachND.made 0 6))

/-- Claim C5: in every reachable system state (init with at least one
floor, requestLift restricted to caller-validated floors, tick), a single
tick moves every car by at most one floor and keeps it inside
[0, totalFloors - 1]. -/
theorem claim5_theorem {sys : ElevatorSystem} (h : SysReach sys) (i : Nat) (l l' : Lift)
    (hl : sys.lifts.get? i = some l) (hl' : sys.tick.lifts.get? i = some l') :
    |l'.currentFloor - l.currentFloor| ≤ 1 ∧
    0 ≤ l'.currentFloor ∧ l'.currentFloor ≤ sys.totalFloors - 1 := by
  obtain ⟨htop, hall⟩ := sysReach_inv h
  have hmap : sys.tick.lifts.get? i = (sys.lifts.get? i).map Lift.move := by
    simp [ElevatorSystem.tick, List.get?_map]
  rw [hmap, hl] at hl'
  simp only [Option.map_some', Option.some.injEq] at hl'
  subst hl'
  have hok := hall l (List.get?_mem hl)
  have hok2 := move_LiftOK hok
  obtain ⟨h0, h1, hU, hD, hreq, hp0, hp1, hlen⟩ := hok
  refine ⟨?_, hok2.1, hok2.2.1⟩
  rw [Lift.move_currentFloor, abs_le]
  cases hdir : l.direction <;> simp only [moveFloor, hdir] <;> omega

/-- Claim C5 witness: after committing (0,3) on a fresh two-car system
with six floors, one tick moves car 0 from floor 0 to floor 1. -/
theorem claim5_witness :
    |(Lift.move (Lift.addRequest (Lift.make 0 6) 0 3)).currentFloor -
      (Lift.addRequest (Lift.make 0 6) 0 3).currentFloor| ≤ 1 ∧
    0 ≤ (Lift.move (Lift.addRequest (Lift.make 0 6) 0 3)).currentFloor ∧
    (Lift.move (Lift.addRequest (Lift.make 0 6) 0 3)).currentFloor ≤
      ((ElevatorSystem.init 6 2).requestLift 0 3).2.totalFloors - 1 :=
  claim5_theorem
    (SysReach.request 0 3 (SysReach.boot 6 2 (by decide)) (by decide) (by decide)
      (by decide) (by decide))
    0 (Lift.addRequest (Lift.make 0 6) 0 3) (Lift.move (Lift.addRequest (Lift.make 0 6) 0 3))
    (by decide) (by decide)

/-- Claim C6: in every reachable system state, every car holds between 0
and 10 passengers, and a car at capacity rejects every request. -/
theorem claim6_theorem {sys : ElevatorSystem} (h : SysReach sys) (l : Lift)
    (hl : l ∈ sys.lifts) :
    0 ≤ l.passengers ∧ l.passengers ≤ 10 ∧
    (l.passengers = 10 → ∀ s d, l.canAddRequest s d = false) := by
  obtain ⟨htop, hall⟩ := sysReach_inv h
  obtain ⟨h0, h1, hU, hD, hreq, hp0, hp1, hlen⟩ := hall l hl
  exact ⟨hp0, hp1, fun hcap s d => canAddRequest_at_capacity l (by omega) s d⟩

/-- Claim C6 witness: the bound instantiated at car 0 of a fresh system. -/
theorem claim6_witness :
    0 ≤ (Lift.make 0 6).passengers ∧ (Lift.make 0 6).passengers ≤ 10 ∧
    ((Lift.make 0 6).passengers = 10 →
      ∀ s d, (Lift.make 0 6).canAddRequest s d = false) :=
  claim6_theorem (SysReach.boot 6 2 (by decide)) (Lift.make 0 6) (by decide)

/-- Claim C7: when at least one car is eligible, requestLift returns the
index of the lowest-index car attaining the minimum ETA among the eligible
cars (first-found wins ties), commits the request to exactly that car (all
other cars are untouched), and that car passed the eligibility check. -/
theorem claim7_theorem (sys : ElevatorSystem) (s d : Int)
    (hex : ∃ l ∈ sys.lifts, l.canAddRequest s d = true) :
    ∃ (k : Nat) (lk : Lift),
      (sys.requestLift s d).1 = (k : Int) ∧
      sys.lifts.get? k = some lk ∧
      lk.canAddRequest s d = true ∧
      (∀ (j : Nat) (lj : Lift), sys.lifts.get? j = some lj → lj.canAddRequest s d = true →
        lk.calculateTimeToReach s (if s < d then Dir.U else Dir.D) ≤
          lj.calculateTimeToReach s (if s < d then Dir.U else Dir.D) ∧
        (lj.calculateTimeToReach s (if s < d then Dir.U else Dir.D) =
          lk.calculateTimeToReach s (if s < d then Dir.U else Dir.D) → k ≤ j)) ∧
      (sys.requestLift s d).2.lifts.get? k = some (lk.addRequest s d) ∧
      ∀ j : Nat, j ≠ k → (sys.requestLift s d).2.lifts.get? j = sys.lifts.get? j := by
  rcases requestLift_cases sys s d with ⟨heq, hall⟩ | ⟨k, lk, hget, helig, heq, hmin⟩
  · obtain ⟨l, hl, he⟩ := hex
    rw [hall l hl] at he
    cases he
  · refine ⟨k, lk, by rw [heq], hget, helig, hmin, ?_, ?_⟩
    · rw [heq]
      show (commitAt s d sys.lifts k).get? k = _
      rw [commitAt_get?, if_pos rfl, hget]
      rfl
    · intro j hj
      rw [heq]
      show (commitAt s d sys.lifts k).get? j = _
      rw [commitAt_get?, if_neg hj]

/-- Claim C7 witness: on a fresh two-car system, requestLift(0,3) selects
car 0 (both cars are eligible with equal ETA 0 and the first wins). -/
theorem claim7_witness :
    ∃ (k : Nat) (lk : Lift),
      (((ElevatorSystem.init 6 2).requestLift 0 3).1 = (k : Int)) ∧
      (ElevatorSystem.init 6 2).lifts.get? k = some lk ∧
      lk.canAddRequest 0 3 = true ∧
      (∀ (j : Nat) (lj : Lift), (ElevatorSystem.init 6 2).lifts.get? j = some lj →
        lj.canAddRequest 0 3 = true →
        lk.calculateTimeToReach 0 (if (0 : Int) < 3 then Dir.U else Dir.D) ≤
          lj.calculateTimeToReach 0 (if (0 : Int) < 3 then Dir.U else Dir.D) ∧
        (lj.calculateTimeToReach 0 (if (0 : Int) < 3 then Dir.U else Dir.D) =
          lk.calculateTimeToReach 0 (if (0 : Int) < 3 then Dir.U else Dir.D) → k ≤ j)) ∧
      ((ElevatorSystem.init 6 2).requestLift 0 3).2.lifts.get? k =
        some (lk.addRequest 0 3) ∧
      ∀ j : Nat, j ≠ k → ((ElevatorSystem.init 6 2).requestLift 0 3).2.lifts.get? j =
        (ElevatorSystem.init 6 2).lifts.get? j :=
  claim7_theorem (ElevatorSystem.init 6 2) 0 3 (by decide)

/-- Claim C8: when no car is eligible, requestLift returns the sentinel -1
and the whole dispatcher state is unchanged. -/
theorem claim8_theorem (sys : ElevatorSystem) (s d : Int)
    (h : ∀ l ∈ sys.lifts, l.canAddRequest s d = false) :
    (sys.requestLift s d).1 = -1 ∧ (sys.requestLift s d).2 = sys := by
  rcases requestLift_cases sys s d with ⟨heq, _⟩ | ⟨k, lk, hget, helig, _, _⟩
  · rw [heq]
    exact ⟨rfl, rfl⟩
  · rw [h lk (List.get?_mem hget)] at helig
    cases helig

/-- A two-car system with both cars busy moving up past floor 0, so that
neither is eligible for a request starting at floor 0 (scenario B shape). -/
def busySystem : ElevatorSystem :=
  { lifts := [Lift.move (Lift.addRequest (Lift.make 0 6) 4 5),
              Lift.move (Lift.addRequest (Lift.make 1 6) 4 5)],
    totalFloors := 6 }

/-- Claim C8 witness: on the busy two-car system, requestLift(0,5) is
rejected with -1 and the state is unchanged. -/
theorem claim8_witness :
    (busySystem.requestLift 0 5).1 = -1 ∧ (busySystem.requestLift 0 5).2 = busySystem :=
  claim8_theorem busySystem 0 5 (by decide)

/-- Claim C9, counterexample: the car moving Up at floor 0 with committed
requests [(2,5)] (turnaround floor 5) and the opposite-direction query
etaTo(7, Down): the code returns (5 - 0) + (5 - 7) = 3, not the
distance-sum (5 - 0) + (7 - 5) = 7 demanded by the claim, because the
second summand of the formula is signed, not an absolute distance. -/
theorem claim9_counterexample :
    (Lift.addRequest (Lift.make 0 6) 2 5).calculateTimeToReach 7 Dir.D = 3 ∧
    (Lift.addRequest (Lift.make 0 6) 2 5).calculateTimeToReach 7 Dir.D ≠
      |(5 : Int) - (Lift.addRequest (Lift.make 0 6) 2 5).currentFloor| +
        |(5 : Int) - 7| := by
  decide

/-- Claim C9 as amended: etaTo equals the spec formula with the second
summand of the turnaround clause taken as the signed offset from the
turnaround floor back to the pickup floor (turnaround - start going up,
start - turnaround going down), where the turnaround floor is the farthest
floor in the travel direction over the current floor and all committed
request endpoints. -/
theorem claim9_theorem (l : Lift) (s : Int) (rd : Dir) :
    l.calculateTimeToReach s rd = specEta l s rd :=
  calculateTimeToReach_eq_specEta l s rd

/-- Claim C10: for any carId outside [0, carCount-1], the passenger-count
query returns 0 instead of failing, in every system state. -/
theorem claim10_theorem (sys : ElevatorSystem) (i : Int)
    (h : i < 0 ∨ (sys.lifts.length : Int) ≤ i) :
    sys.getNumberOfPeopleOnLift i = 0 := by
  unfold ElevatorSystem.getNumberOfPeopleOnLift
  rcases h with h | h
  · rw [if_pos h]
  · rw [if_neg (by omega)]
    have hlen : sys.lifts.length ≤ i.toNat := by omega
    rw [List.get?_eq_none.mpr hlen]

/-- Claim C10 witness: index 5 on a two-car system yields 0. -/
theorem claim10_witness : (ElevatorSystem.init 6 2).getNumberOfPeopleOnLift 5 = 0 :=
  claim10_theorem (ElevatorSystem.init 6 2) 5 (Or.inr (by decide))
